import Mathlib

/-!
Verification of the fty-shm metric store (src/fty_shm.cc) against its
specification.  The C functions are shallowly embedded: byte buffers become
lists of characters, the metric directory becomes a list of entries (name,
file content, mtime), syscall outcomes that depend on concurrent processes
become explicit boolean inputs, and C time arithmetic becomes Int with
truncating division (Int.tdiv) where the source divides time_t values.
-/

set_option autoImplicit false
set_option maxRecDepth 10000

namespace FtyShm

/-- Error classification used by the spec (section 7).  The C code signals
errors through errno; the correspondence is ENAMETOOLONG, EINVAL, ENOENT,
ESTALE, ERANGE (malformed TTL, classified Corrupt by the spec), EIO. -/
inductive Err where
  | nameTooLong
  | invalidArgument
  | notFound
  | stale
  | corrupt
  | ioError
  deriving DecidableEq

deriving instance DecidableEq for Except

/-- TTL_LEN from fty_shm.cc: the TTL field is the first 10 bytes. -/
def TTL_LEN : Nat := 10

/-- UNIT_START from fty_shm.cc. -/
def UNIT_START : Nat := TTL_LEN + 1

/-- UNIT_LEN from fty_shm.cc. -/
def UNIT_LEN : Nat := 10

/-- PAYLOAD_START from fty_shm.cc. -/
def PAYLOAD_START : Nat := UNIT_START + UNIT_LEN + 1

/-- PAYLOAD_LEN from fty_shm.cc: 128 - PAYLOAD_START = 106. -/
def PAYLOAD_LEN : Nat := 128 - PAYLOAD_START

/-- NAME_MAX on Linux, the limit used by prepare_filename. -/
def NAME_MAX : Nat := 255

/-- METRIC_SUFFIX from fty_shm.cc, as a character list. -/
def METRIC_SUFFIX : List Char := ['.', 'm', 'e', 't', 'r', 'i', 'c']

/-- SUFFIX_LEN from fty_shm.cc. -/
def SUFFIX_LEN : Nat := METRIC_SUFFIX.length

/-- The NUL character, used as payload padding. -/
def nulChar : Char := Char.ofNat 0

/-- C isspace over the default locale: space, \t, \n, \v, \f, \r
(character codes 32 and 9 to 13).  Used by strtol for leading whitespace. -/
def isCSpace (c : Char) : Bool := c.toNat == 32 || (9 ≤ c.toNat && c.toNat ≤ 13)

/-- C isdigit: character codes 48 to 57. -/
def isCDigit (c : Char) : Bool := 48 ≤ c.toNat && c.toNat ≤ 57

/-- Numeric value of a decimal digit character. -/
def digitVal (c : Char) : Nat := c.toNat - 48

/-- Value of a list of decimal digit characters, most significant first. -/
def digitsVal (ds : List Char) : Nat := ds.foldl (fun a c => 10 * a + digitVal c) 0

/-- Embeds strtol(str, end, 10) on a NUL-terminated buffer: skip leading C
whitespace, accept one optional sign, then consume decimal digits.  Returns
the signed value and the number of characters consumed (end - str); if no
digit is consumed the result is (0, 0), matching end == str. -/
def strtol10 (s : List Char) : Int × Nat :=
  let ws := s.takeWhile isCSpace
  let r := s.drop ws.length
  let sgn : Int := if r.head? = some '-' then -1 else 1
  let slen : Nat := if r.head? = some '-' ∨ r.head? = some '+' then 1 else 0
  let ds := (r.drop slen).takeWhile isCDigit
  if ds.isEmpty then (0, 0)
  else (sgn * (digitsVal ds : Int), ws.length + slen + ds.length)

/-- Conversion of the long returned by strtol to int (the C code stores it in
`int res`); gcc on Linux truncates to 32 bits, two's complement. -/
def toInt32 (v : Int) : Int := (v + 2 ^ 31) % 2 ^ 32 - 2 ^ 31

/-- Embeds parse_ttl (fty_shm.cc lines 154-168): the first TTL_LEN bytes are
handed to strtol with the byte at index TTL_LEN replaced by NUL; the parse
fails (errno = ERANGE, classified Corrupt) unless strtol consumed exactly
TTL_LEN characters. -/
def parse_ttl (s : List Char) : Except Err Int :=
  let r := strtol10 (s.take TTL_LEN)
  if r.2 = TTL_LEN then .ok (toInt32 r.1) else .error .corrupt

/-- The TTL encoding loop of write_value (lines 124-127): ten decimal digits,
zero padded, most significant first. -/
def ttlDigits (t : Nat) : List Char :=
  (List.range TTL_LEN).map fun i => Char.ofNat (48 + t / 10 ^ (TTL_LEN - 1 - i) % 10)

/-- The 128-byte record assembled by write_value: TTL digits, newline, unit
right-padded with spaces, newline, value padded with NUL bytes. -/
def mkRecord (value unit : List Char) (t : Nat) : List Char :=
  ttlDigits t ++ ['\n'] ++ unit ++ List.replicate (UNIT_LEN - unit.length) ' ' ++
    ['\n'] ++ value ++ List.replicate (PAYLOAD_LEN - value.length) nulChar

/-- Embeds write_value (lines 106-141): reject oversized value or unit with
EINVAL, clamp a negative ttl to 0, and produce the 128-byte record.  The
open/pwrite/close syscalls are modelled as succeeding. -/
def write_value (value unit : List Char) (ttl : Int) : Except Err (List Char) :=
  if PAYLOAD_LEN < value.length then .error .invalidArgument
  else if UNIT_LEN < unit.length then .error .invalidArgument
  else .ok (mkRecord value unit (max ttl 0).toNat)

/-- The unit-field trimming loop of read_value (lines 199-203): trailing
spaces and newlines are removed from the right of the 11-byte unit field
(unit bytes plus the following newline). -/
def spaceOrNl (c : Char) : Bool := c == ' ' || c == '\n'

/-- Right-trim of spaces and newlines, as performed on the unit field. -/
def trimUnitR (s : List Char) : List Char := (s.reverse.dropWhile spaceOrNl).reverse

/-- Reading a C string out of a buffer: the bytes up to the first NUL. -/
def cstr (s : List Char) : List Char := s.takeWhile fun c => !(c == nulChar)

/-- Embeds read_value (lines 172-212) on a file with the given content and
mtime, at time now.  A file shorter than 128 bytes makes read_buf fail with
EIO.  After parsing the TTL, a nonzero TTL with now - mtime > ttl is ESTALE.
The unit is the trimmed 11-byte unit field (always NUL-terminated inside the
buffer by the trim loop).  The value is read as a C string out of the
106-byte payload region; the source calls strdup(buf + PAYLOAD_START) with
no cap, so this extraction is faithful exactly when a NUL byte occurs within
the payload region, that is, when the stored value is shorter than 106
bytes; for an unpadded NUL-free 106-byte payload the source over-reads the
128-byte stack buffer (undefined behaviour) and returns the payload followed
by whatever adjacent memory holds, which no total model can reproduce.
Theorems about the exact value returned therefore restrict the value to
fewer than PAYLOAD_LEN bytes; theorems about the error classification alone
(EIO, Corrupt, Stale, success) are unaffected, since the source computes it
before the payload read. -/
def read_value (content : List Char) (mtime now : Int) (need_unit : Bool) :
    Except Err (List Char × List Char) :=
  if content.length < PAYLOAD_START + PAYLOAD_LEN then .error .ioError
  else
    match parse_ttl (content.take TTL_LEN) with
    | .error e => .error e
    | .ok ttl =>
      if ttl ≠ 0 ∧ now - mtime > ttl then .error .stale
      else
        let unitOut :=
          if need_unit then cstr (trimUnitR ((content.drop UNIT_START).take (UNIT_LEN + 1)))
          else []
        .ok (cstr ((content.drop PAYLOAD_START).take PAYLOAD_LEN), unitOut)

/-- Embeds prepare_filename (lines 70-92), producing the directory entry name
(the shm_dir part is dropped: all operations share one root).  The length
check comes first (ENAMETOOLONG), then the character check (EINVAL). -/
def prepare_filename (asset metric : List Char) : Except Err (List Char) :=
  if NAME_MAX < asset.length + 1 + metric.length + SUFFIX_LEN then .error .nameTooLong
  else if '/' ∈ asset ∨ ':' ∈ asset ∨ '/' ∈ metric ∨ ':' ∈ metric then .error .invalidArgument
  else .ok (asset ++ [':'] ++ metric ++ METRIC_SUFFIX)

/-- One directory entry of the store: file name, file content, mtime. -/
structure Entry where
  name : List Char
  content : List Char
  mtime : Int
  deriving DecidableEq

/-- Embeds fty_shm_write_metric / fty::shm::write_metric: build the name,
encode the record, and overwrite the entry of that name (open O_CREAT plus a
full-record pwrite replaces the old content and refreshes mtime). -/
def fty_shm_write_metric (asset metric value unit : List Char) (ttl : Int)
    (store : List Entry) (wtime : Int) : Except Err (List Entry) :=
  match prepare_filename asset metric with
  | .error e => .error e
  | .ok fn =>
    match write_value value unit ttl with
    | .error e => .error e
    | .ok blob => .ok ((store.filter fun e => !(e.name == fn)) ++ [⟨fn, blob, wtime⟩])

/-- Embeds fty_shm_read_metric / fty::shm::read_metric: build the name, open
the file (ENOENT when absent), and decode via read_value. -/
def fty_shm_read_metric (asset metric : List Char) (store : List Entry) (now : Int)
    (need_unit : Bool) : Except Err (List Char × List Char) :=
  match prepare_filename asset metric with
  | .error e => .error e
  | .ok fn =>
    match store.find? (fun e => e.name == fn) with
    | none => .error .notFound
    | some e => read_value e.content e.mtime now need_unit

/-- strchr(name, ':') as a test: does the name contain a colon. -/
def colonIn (name : List Char) : Bool := name.any fun c => c == ':'

/-- The asset part of an entry name: the characters before the first colon. -/
def entryAsset (name : List Char) : List Char := name.takeWhile fun c => !(c == ':')

/-- Does the name end with METRIC_SUFFIX (strncmp of the last SUFFIX_LEN
bytes, only reached when the name is long enough). -/
def hasMetricSuffix (name : List Char) : Bool :=
  decide (SUFFIX_LEN ≤ name.length) && name.drop (name.length - SUFFIX_LEN) == METRIC_SUFFIX

/-- The metric part of an entry name: between the first colon and the
suffix (delim + 1, length len - asset_len - 1 - SUFFIX_LEN). -/
def entryMetric (name : List Char) : List Char :=
  (name.drop ((entryAsset name).length + 1)).take
    (name.length - (entryAsset name).length - 1 - SUFFIX_LEN)

/-- The readdir loop of fty::shm::find_assets (lines 409-418): names without
a colon are skipped, the part before the first colon is recorded once. -/
def findAssetsGo (entries : List (List Char)) (acc : List (List Char)) : List (List Char) :=
  match entries with
  | [] => acc
  | n :: rest =>
    if colonIn n then
      let a := entryAsset n
      if a ∈ acc then findAssetsGo rest acc else findAssetsGo rest (acc ++ [a])
    else findAssetsGo rest acc

/-- Embeds fty::shm::find_assets (lines 398-421): fails leaving the output
container untouched when the directory cannot be listed; otherwise clears
the container and scans.  Returns the C int result and the container. -/
def find_assets (dirOk : Bool) (entries : List (List Char)) (assets : List (List Char)) :
    Int × List (List Char) :=
  if dirOk then (0, findAssetsGo entries []) else (-1, assets)

/-- Embeds fty_shm_delete_asset (lines 236-260): every entry with a colon
whose asset part matches is unlinked (unlink modelled as succeeding);
entries without a colon are skipped as malformed. -/
def fty_shm_delete_asset (dirOk : Bool) (asset : List Char) (store : List Entry) :
    Int × List Entry :=
  if dirOk then (0, store.filter fun e => !(colonIn e.name && entryAsset e.name == asset))
  else (-1, store)

/-- The per-entry filter of fty::shm::read_asset_metrics (lines 434-445):
a colon must be present, the name must be long enough and carry the metric
suffix, and the asset part must match. -/
def ramMatch (asset : List Char) (name : List Char) : Bool :=
  colonIn name && hasMetricSuffix name && entryAsset name == asset

/-- The readdir loop of fty::shm::read_asset_metrics: err starts at -1 and
becomes 0 at the first entry that matches and decodes; entries that fail
read_value are skipped. -/
def ramGo (asset : List Char) (entries : List Entry) (now : Int)
    (acc : List (List Char × (List Char × List Char))) (err : Int) :
    Int × List (List Char × (List Char × List Char)) :=
  match entries with
  | [] => (err, acc)
  | e :: rest =>
    if ramMatch asset e.name then
      match read_value e.content e.mtime now true with
      | .error _ => ramGo asset rest now acc err
      | .ok vu => ramGo asset rest now (acc ++ [(entryMetric e.name, vu)]) 0
    else ramGo asset rest now acc err

/-- Embeds fty::shm::read_asset_metrics (lines 423-456): fails leaving the
container untouched when the directory cannot be listed; otherwise clears
the container and scans, returning -1 unless at least one matching entry
was read successfully. -/
def read_asset_metrics (dirOk : Bool) (asset : List Char) (store : List Entry) (now : Int)
    (metrics : List (List Char × (List Char × List Char))) :
    Int × List (List Char × (List Char × List Char)) :=
  if dirOk then ramGo asset store now [] (-1) else (-1, metrics)

/-- The per-entry deletion decision of fty_shm_cleanup (lines 291-357) in a
race-free run: the name must carry the metric suffix, the file must be at
least PAYLOAD_START bytes, the TTL must parse, be nonzero, and satisfy
(now - mtime) / 2 > ttl with C truncating division on time_t. -/
def cleanup_removes (e : Entry) (now : Int) : Bool :=
  hasMetricSuffix e.name &&
  decide (PAYLOAD_START ≤ e.content.length) &&
  match parse_ttl (e.content.take TTL_LEN) with
  | .error _ => false
  | .ok ttl => decide (ttl ≠ 0) && decide (ttl < (now - e.mtime).tdiv 2)

/-- Embeds fty_shm_cleanup over a directory snapshot in a race-free run (no
concurrent writer, all syscalls succeed): exactly the entries selected by
cleanup_removes are unlinked.  The error aggregation and the racy rename
protocol are modelled separately by cleanup_race_step. -/
def fty_shm_cleanup (store : List Entry) (now : Int) : List Entry :=
  store.filter fun e => !(cleanup_removes e now)

/-- Syscall outcomes, decided by the environment (concurrent writers), for
the removal protocol of one cleanup entry (lines 344-363). -/
structure RaceEnv where
  renameOk : Bool
  statOk : Bool
  sameInode : Bool
  unlinkOk : Bool
  renameNoreplaceOk : Bool
  deriving DecidableEq

/-- What the protocol did: whether err was set to -1, whether an unlink of
the temporary .delete file was issued, whether the old content was restored
under the original name. -/
structure RaceOutcome where
  errSet : Bool
  tempDiscarded : Bool
  restored : Bool
  deriving DecidableEq

/-- Embeds lines 344-363 of fty_shm_cleanup for an entry already selected
for deletion: rename to .delete, re-stat, compare (dev, inode); if equal,
unlink the temporary; if different, attempt the non-replacing rename back,
and on its failure unlink the temporary and set err = -1. -/
def cleanup_race_step (env : RaceEnv) : RaceOutcome :=
  if !env.renameOk then ⟨true, false, false⟩
  else if !env.statOk then ⟨true, false, false⟩
  else if env.sameInode then ⟨!env.unlinkOk, true, false⟩
  else if env.renameNoreplaceOk then ⟨false, false, true⟩
  else ⟨true, true, false⟩

/-- Is an Except a success. -/
def exceptOk {α : Type} (r : Except Err α) : Bool :=
  match r with
  | .ok _ => true
  | .error _ => false

/-- Did some entry of the list match the asset and decode successfully. -/
def ramHit (asset : List Char) (now : Int) (e : Entry) : Bool :=
  ramMatch asset e.name && exceptOk (read_value e.content e.mtime now true)

/-! Helper lemmas about the embedded definitions. -/

theorem digitProps : ∀ d : Nat, d < 10 →
    isCSpace (Char.ofNat (48 + d)) = false ∧ isCDigit (Char.ofNat (48 + d)) = true ∧
    ¬(Char.ofNat (48 + d) = '+') ∧ ¬(Char.ofNat (48 + d) = '-') ∧
    digitVal (Char.ofNat (48 + d)) = d := by decide

theorem isCSpace_digit (n : Nat) : isCSpace (Char.ofNat (48 + n % 10)) = false :=
  (digitProps _ (Nat.mod_lt _ (by norm_num))).1

theorem isCDigit_digit (n : Nat) : isCDigit (Char.ofNat (48 + n % 10)) = true :=
  (digitProps _ (Nat.mod_lt _ (by norm_num))).2.1

theorem digit_ne_plus (n : Nat) : (Char.ofNat (48 + n % 10) = '+') = False :=
  eq_false (digitProps _ (Nat.mod_lt _ (by norm_num))).2.2.1

theorem digit_ne_minus (n : Nat) : (Char.ofNat (48 + n % 10) = '-') = False :=
  eq_false (digitProps _ (Nat.mod_lt _ (by norm_num))).2.2.2.1

theorem digitVal_digit (n : Nat) : digitVal (Char.ofNat (48 + n % 10)) = n % 10 :=
  (digitProps _ (Nat.mod_lt _ (by norm_num))).2.2.2.2

theorem ttlDigits_eq (t : Nat) : ttlDigits t =
    [Char.ofNat (48 + t / 1000000000 % 10), Char.ofNat (48 + t / 100000000 % 10),
     Char.ofNat (48 + t / 10000000 % 10), Char.ofNat (48 + t / 1000000 % 10),
     Char.ofNat (48 + t / 100000 % 10), Char.ofNat (48 + t / 10000 % 10),
     Char.ofNat (48 + t / 1000 % 10), Char.ofNat (48 + t / 100 % 10),
     Char.ofNat (48 + t / 10 % 10), Char.ofNat (48 + t % 10)] := by
  have h : List.range 10 = [0, 1, 2, 3, 4, 5, 6, 7, 8, 9] := by decide
  simp only [ttlDigits, TTL_LEN, h, List.map]
  norm_num

theorem takeWhile_all {α : Type} (p : α → Bool) :
    ∀ l : List α, (∀ x ∈ l, p x = true) → l.takeWhile p = l := by
  intro l h
  induction l with
  | nil => rfl
  | cons a t ih =>
    rw [List.takeWhile_cons_of_pos (h a (List.mem_cons_self a t)), ih]
    intro x hx
    exact h x (List.mem_cons_of_mem a hx)

theorem takeWhile_append_all {α : Type} (p : α → Bool) (xs ys : List α)
    (h : ∀ x ∈ xs, p x = true) : (xs ++ ys).takeWhile p = xs ++ ys.takeWhile p := by
  induction xs with
  | nil => rfl
  | cons a t ih =>
    rw [List.cons_append, List.takeWhile_cons_of_pos (h a (List.mem_cons_self a t)),
      ih (fun x hx => h x (List.mem_cons_of_mem a hx)), List.cons_append]

theorem ttlDigits_all_digit (t : Nat) : ∀ c ∈ ttlDigits t, isCDigit c = true := by
  intro c hc
  simp only [ttlDigits, List.mem_map] at hc
  obtain ⟨i, _, rfl⟩ := hc
  exact isCDigit_digit _

theorem digitsVal_ttlDigits (t : Nat) : digitsVal (ttlDigits t) = t % 10 ^ 10 := by
  rw [ttlDigits_eq]
  simp only [digitsVal, List.foldl, digitVal_digit]
  norm_num
  omega

theorem ttlDigits_length (t : Nat) : (ttlDigits t).length = TTL_LEN := by
  simp [ttlDigits]

theorem strtol10_ttlDigits (t : Nat) :
    strtol10 (ttlDigits t) = (((t % 10 ^ 10 : Nat) : Int), TTL_LEN) := by
  have hws : (ttlDigits t).takeWhile isCSpace = [] := by
    rw [ttlDigits_eq]
    exact List.takeWhile_cons_of_neg (by simp [isCSpace_digit])
  have hds : (ttlDigits t).takeWhile isCDigit = ttlDigits t :=
    takeWhile_all _ _ (ttlDigits_all_digit t)
  have hhead : (ttlDigits t).head? = some (Char.ofNat (48 + t / 1000000000 % 10)) := by
    rw [ttlDigits_eq]
    rfl
  have hne : (ttlDigits t).isEmpty = false := by
    rw [ttlDigits_eq]
    rfl
  simp only [strtol10, hws, List.length_nil, List.drop_zero, hhead, Option.some.injEq,
    digit_ne_minus, digit_ne_plus, if_false, or_self, hds, hne,
    Bool.false_eq_true, digitsVal_ttlDigits, ttlDigits_length]
  norm_num

theorem parse_ttl_ttlDigits (t : Nat) (h : t < 2 ^ 31) :
    parse_ttl (ttlDigits t) = .ok (t : Int) := by
  have h10 : t % 10 ^ 10 = t := Nat.mod_eq_of_lt (by omega)
  unfold parse_ttl
  rw [List.take_of_length_le (le_of_eq (ttlDigits_length t)), strtol10_ttlDigits, h10]
  have hmod : toInt32 (t : Int) = (t : Int) := by
    unfold toInt32
    have hlt : ((t : Int) + 2 ^ 31) < 2 ^ 32 := by
      push_cast
      omega
    rw [Int.emod_eq_of_lt (by positivity) hlt]
    ring
  simp [hmod]

theorem mkRecord_length (value unit : List Char) (t : Nat)
    (hv : value.length ≤ PAYLOAD_LEN) (hu : unit.length ≤ UNIT_LEN) :
    (mkRecord value unit t).length = 128 := by
  simp only [mkRecord, List.length_append, ttlDigits_length, List.length_replicate,
    List.length_cons, List.length_nil, TTL_LEN, UNIT_LEN, PAYLOAD_LEN, PAYLOAD_START,
    UNIT_START] at *
  omega

theorem mkRecord_take_ttl (value unit : List Char) (t : Nat) :
    (mkRecord value unit t).take TTL_LEN = ttlDigits t := by
  unfold mkRecord
  simp only [List.append_assoc]
  exact List.take_left' (ttlDigits_length t)

theorem mkRecord_unit_field (value unit : List Char) (t : Nat) (hu : unit.length ≤ UNIT_LEN) :
    ((mkRecord value unit t).drop UNIT_START).take (UNIT_LEN + 1) =
      unit ++ List.replicate (UNIT_LEN - unit.length) ' ' ++ ['\n'] := by
  have h1 : mkRecord value unit t =
      (ttlDigits t ++ ['\n']) ++
        ((unit ++ List.replicate (UNIT_LEN - unit.length) ' ' ++ ['\n']) ++
          (value ++ List.replicate (PAYLOAD_LEN - value.length) nulChar)) := by
    simp [mkRecord, List.append_assoc]
  rw [h1, List.drop_left' (by simp [ttlDigits_length, TTL_LEN, UNIT_START]),
    List.take_left' (by simp only [List.length_append, List.length_replicate,
      List.length_cons, List.length_nil, UNIT_LEN] at *; omega)]

theorem mkRecord_payload (value unit : List Char) (t : Nat)
    (hv : value.length ≤ PAYLOAD_LEN) (hu : unit.length ≤ UNIT_LEN) :
    ((mkRecord value unit t).drop PAYLOAD_START).take PAYLOAD_LEN =
      value ++ List.replicate (PAYLOAD_LEN - value.length) nulChar := by
  have h1 : mkRecord value unit t =
      (ttlDigits t ++ ['\n'] ++ unit ++ List.replicate (UNIT_LEN - unit.length) ' ' ++ ['\n']) ++
        (value ++ List.replicate (PAYLOAD_LEN - value.length) nulChar) := by
    simp [mkRecord, List.append_assoc]
  rw [h1, List.drop_left' ?hlen, List.take_of_length_le ?hle]
  case hlen =>
    simp only [List.length_append, ttlDigits_length, List.length_replicate,
      List.length_cons, List.length_nil, TTL_LEN, UNIT_LEN, PAYLOAD_START, UNIT_START] at *
    omega
  case hle =>
    simp only [List.length_append, List.length_replicate, PAYLOAD_LEN, PAYLOAD_START,
      UNIT_START, UNIT_LEN, TTL_LEN] at *
    omega

theorem tdiv2_gt_iff (d T : Int) (hT : 0 < T) : T < d.tdiv 2 ↔ 2 * T + 1 < d := by
  rcases d with n | n
  · rw [show (Int.ofNat n).tdiv 2 = ((n / 2 : Nat) : Int) from rfl,
      show (Int.ofNat n) = ((n : Nat) : Int) from rfl]
    omega
  · rw [show (Int.negSucc n).tdiv 2 = -(((n + 1) / 2 : Nat) : Int) from rfl,
      Int.negSucc_eq]
    push_cast
    omega

theorem read_value_mkRecord (value unit : List Char) (t : Nat) (mtime now : Int) (nu : Bool)
    (hv : value.length ≤ PAYLOAD_LEN) (hu : unit.length ≤ UNIT_LEN) (ht : t < 2 ^ 31) :
    read_value (mkRecord value unit t) mtime now nu =
      if (t : Int) ≠ 0 ∧ now - mtime > (t : Int) then .error .stale
      else .ok (cstr (value ++ List.replicate (PAYLOAD_LEN - value.length) nulChar),
        if nu then cstr (trimUnitR (unit ++ List.replicate (UNIT_LEN - unit.length) ' ' ++ ['\n']))
        else []) := by
  have hlen := mkRecord_length value unit t hv hu
  unfold read_value
  rw [if_neg (by rw [hlen]; decide), mkRecord_take_ttl, parse_ttl_ttlDigits t ht,
    mkRecord_unit_field value unit t hu, mkRecord_payload value unit t hv hu]

theorem write_value_inv (value unit : List Char) (ttl : Int) (blob : List Char)
    (hw : write_value value unit ttl = .ok blob) :
    value.length ≤ PAYLOAD_LEN ∧ unit.length ≤ UNIT_LEN ∧
      blob = mkRecord value unit (max ttl 0).toNat := by
  unfold write_value at hw
  by_cases h1 : PAYLOAD_LEN < value.length
  · rw [if_pos h1] at hw
    exact Except.noConfusion hw
  · rw [if_neg h1] at hw
    by_cases h2 : UNIT_LEN < unit.length
    · rw [if_pos h2] at hw
      exact Except.noConfusion hw
    · rw [if_neg h2] at hw
      injection hw with hw
      exact ⟨not_lt.mp h1, not_lt.mp h2, hw.symm⟩

theorem digit_not_space (c : Char) (h : isCDigit c = true) : isCSpace c = false := by
  rcases hs : isCSpace c with _ | _
  · rfl
  · exfalso
    unfold isCDigit at h
    unfold isCSpace at hs
    simp only [Bool.or_eq_true, Bool.and_eq_true, beq_iff_eq, decide_eq_true_eq] at h hs
    omega

theorem digit_ne_plus_c (c : Char) (h : isCDigit c = true) : c ≠ '+' := by
  rintro rfl
  exact absurd h (by decide)

theorem digit_ne_minus_c (c : Char) (h : isCDigit c = true) : c ≠ '-' := by
  rintro rfl
  exact absurd h (by decide)

theorem parse_ttl_ok_iff (s : List Char) (h : s.length = TTL_LEN) :
    exceptOk (parse_ttl s) = true ↔ (strtol10 s).2 = TTL_LEN := by
  unfold parse_ttl
  rw [List.take_of_length_le (le_of_eq h)]
  by_cases hc : (strtol10 s).2 = TTL_LEN
  · rw [if_pos hc]
    exact iff_of_true rfl hc
  · rw [if_neg hc]
    exact iff_of_false (by decide) hc

theorem cleanup_removes_mkRecord (nm value unit : List Char) (T : Int) (mtime now : Int)
    (hn : hasMetricSuffix nm = true) (hv : value.length ≤ PAYLOAD_LEN)
    (hu : unit.length ≤ UNIT_LEN) (hT0 : 0 ≤ T) (hT31 : T < 2 ^ 31) :
    cleanup_removes (Entry.mk nm (mkRecord value unit T.toNat) mtime) now =
      (decide (T ≠ 0) && decide (T < (now - mtime).tdiv 2)) := by
  have htn : T.toNat < 2 ^ 31 := by omega
  have hcast : ((T.toNat : Nat) : Int) = T := Int.toNat_of_nonneg hT0
  have hlen := mkRecord_length value unit T.toNat hv hu
  unfold cleanup_removes
  simp only [hn, mkRecord_take_ttl, parse_ttl_ttlDigits T.toNat htn, hcast, hlen,
    Bool.true_and]
  rw [show decide (PAYLOAD_START ≤ 128) = true from by decide, Bool.true_and]

theorem findAssetsGo_cons (n : List Char) (l : List (List Char)) (acc : List (List Char)) :
    findAssetsGo (n :: l) acc =
      if colonIn n then
        (if entryAsset n ∈ acc then findAssetsGo l acc
         else findAssetsGo l (acc ++ [entryAsset n]))
      else findAssetsGo l acc := rfl

theorem findAssetsGo_insert (n : List Char) (hm : colonIn n = false) :
    ∀ (pre post : List (List Char)) (acc : List (List Char)),
      findAssetsGo (pre ++ n :: post) acc = findAssetsGo (pre ++ post) acc := by
  intro pre
  induction pre with
  | nil =>
    intro post acc
    rw [List.nil_append, List.nil_append, findAssetsGo_cons, if_neg (by simp [hm])]
  | cons f rest ih =>
    intro post acc
    rw [List.cons_append, List.cons_append, findAssetsGo_cons, findAssetsGo_cons]
    by_cases h : colonIn f = true
    · rw [if_pos h, if_pos h]
      by_cases h2 : entryAsset f ∈ acc
      · rw [if_pos h2, if_pos h2]
        exact ih post acc
      · rw [if_neg h2, if_neg h2]
        exact ih post _
    · rw [if_neg h, if_neg h]
      exact ih post acc

theorem ramGo_cons (asset : List Char) (e : Entry) (l : List Entry) (now : Int)
    (acc : List (List Char × (List Char × List Char))) (err : Int) :
    ramGo asset (e :: l) now acc err =
      if ramMatch asset e.name then
        (match read_value e.content e.mtime now true with
         | .error _ => ramGo asset l now acc err
         | .ok vu => ramGo asset l now (acc ++ [(entryMetric e.name, vu)]) 0)
      else ramGo asset l now acc err := rfl

theorem ramGo_insert (asset : List Char) (e : Entry) (now : Int)
    (hm : ramMatch asset e.name = false) :
    ∀ (pre post : List Entry) (acc : List (List Char × (List Char × List Char))) (err : Int),
      ramGo asset (pre ++ e :: post) now acc err = ramGo asset (pre ++ post) now acc err := by
  intro pre
  induction pre with
  | nil =>
    intro post acc err
    rw [List.nil_append, List.nil_append, ramGo_cons, if_neg (by simp [hm])]
  | cons f rest ih =>
    intro post acc err
    rw [List.cons_append, List.cons_append, ramGo_cons, ramGo_cons]
    by_cases h : ramMatch asset f.name = true
    · rw [if_pos h, if_pos h]
      cases hrv : read_value f.content f.mtime now true with
      | error e2 => exact ih post acc err
      | ok vu => exact ih post _ 0
    · rw [if_neg h, if_neg h]
      exact ih post acc err

theorem ramGo_fst (asset : List Char) (now : Int) :
    ∀ (entries : List Entry) (acc : List (List Char × (List Char × List Char))) (err : Int),
      (ramGo asset entries now acc err).1 =
        if entries.any (ramHit asset now) then 0 else err := by
  intro entries
  induction entries with
  | nil =>
    intro acc err
    simp [ramGo]
  | cons e rest ih =>
    intro acc err
    rw [ramGo_cons]
    by_cases h : ramMatch asset e.name = true
    · rw [if_pos h]
      cases hrv : read_value e.content e.mtime now true with
      | error e2 =>
        have hhit : ramHit asset now e = false := by
          simp [ramHit, h, hrv, exceptOk]
        rw [ih]
        simp [List.any_cons, hhit]
      | ok vu =>
        have hhit : ramHit asset now e = true := by
          simp [ramHit, h, hrv, exceptOk]
        rw [ih]
        simp [List.any_cons, hhit]
    · rw [if_neg h]
      have hhit : ramHit asset now e = false := by
        simp [ramHit, h]
      rw [ih]
      simp [List.any_cons, hhit]

/-! Claim theorems. -/

/-- C1, counterexample to the claim as stated: a record written with ttl = 1
whose mtime is 3 seconds in the past has gone unrefreshed for more than 2T
seconds (3 > 2), yet cleanup keeps it, because the code tests
(now - mtime) / 2 > ttl with truncating integer division (3 / 2 = 1 is not
greater than 1). -/
theorem C1_cleanup_threshold_cex :
    2 * 1 < (3 : Int) - 0 ∧
    write_value ['v'] ['u'] 1 = .ok (mkRecord ['v'] ['u'] 1) ∧
    hasMetricSuffix ['a', ':', 'b', '.', 'm', 'e', 't', 'r', 'i', 'c'] = true ∧
    fty_shm_cleanup
      [Entry.mk ['a', ':', 'b', '.', 'm', 'e', 't', 'r', 'i', 'c'] (mkRecord ['v'] ['u'] 1) 0]
      3 =
      [Entry.mk ['a', ':', 'b', '.', 'm', 'e', 't', 'r', 'i', 'c'] (mkRecord ['v'] ['u'] 1) 0] := by
  decide

/-- C1, amended: for a record written with ttl = T, cleanup never deletes it
when T = 0, and for T > 0 deletes it iff now - mtime > 2T + 1, that is, iff
(now - mtime) / 2 > T under the truncating integer division performed by the
code; records with now - mtime at most 2T + 1 survive. -/
theorem C1_cleanup_threshold (nm value unit : List Char) (T : Int) (blob : List Char)
    (mtime now : Int) (hn : hasMetricSuffix nm = true)
    (hw : write_value value unit T = .ok blob) (hT0 : 0 ≤ T) (hT31 : T < 2 ^ 31) :
    (T = 0 → ∀ store : List Entry, Entry.mk nm blob mtime ∈ store →
      Entry.mk nm blob mtime ∈ fty_shm_cleanup store now) ∧
    (0 < T → ∀ store : List Entry, Entry.mk nm blob mtime ∈ store →
      (Entry.mk nm blob mtime ∉ fty_shm_cleanup store now ↔ 2 * T + 1 < now - mtime)) := by
  obtain ⟨hv, hu, hblob⟩ := write_value_inv value unit T blob hw
  rw [max_eq_left hT0] at hblob
  subst hblob
  have hrem := cleanup_removes_mkRecord nm value unit T mtime now hn hv hu hT0 hT31
  constructor
  · intro h0 store hmem
    subst h0
    refine List.mem_filter.mpr ⟨hmem, ?_⟩
    rw [hrem]
    simp
  · intro hTpos store hmem
    have hremT : cleanup_removes (Entry.mk nm (mkRecord value unit T.toNat) mtime) now =
        decide (T < (now - mtime).tdiv 2) := by
      rw [hrem, decide_eq_true (show T ≠ 0 from by omega), Bool.true_and]
    unfold fty_shm_cleanup
    rw [← tdiv2_gt_iff (now - mtime) T hTpos]
    constructor
    · intro hout
      by_contra hnd
      exact hout (List.mem_filter.mpr ⟨hmem, by rw [hremT, decide_eq_false hnd]; rfl⟩)
    · intro hdiv hin
      have h2 := (List.mem_filter.mp hin).2
      rw [hremT, decide_eq_true hdiv] at h2
      exact absurd h2 (by decide)

/-- C1, witness: the amended theorem applied to a concrete record with
ttl = 1 at now = 4. -/
theorem C1_cleanup_threshold_wit :
    (Entry.mk ['a', ':', 'b', '.', 'm', 'e', 't', 'r', 'i', 'c'] (mkRecord ['v'] ['u'] 1) 0 ∉
      fty_shm_cleanup
        [Entry.mk ['a', ':', 'b', '.', 'm', 'e', 't', 'r', 'i', 'c'] (mkRecord ['v'] ['u'] 1) 0]
        4 ↔ 2 * 1 + 1 < (4 : Int) - 0) :=
  (C1_cleanup_threshold ['a', ':', 'b', '.', 'm', 'e', 't', 'r', 'i', 'c'] ['v'] ['u'] 1
    (mkRecord ['v'] ['u'] 1) 0 4 (by decide) (by decide) (by decide) (by decide)).2 (by decide)
    _ (List.mem_singleton.mpr rfl)

/-- C3: for a record written with ttl = T, a read with T = 0 never fails
Stale regardless of the elapsed time now - mtime; with T > 0 the read
succeeds while now - mtime is at most T and fails with Stale exactly when
now - mtime exceeds T. -/
theorem C3_ttl_staleness (value unit : List Char) (T : Int) (blob : List Char)
    (hw : write_value value unit T = .ok blob) (hT0 : 0 ≤ T) (hT31 : T < 2 ^ 31)
    (mtime now : Int) (nu : Bool) :
    (T = 0 → exceptOk (read_value blob mtime now nu) = true) ∧
    (0 < T → now - mtime ≤ T → exceptOk (read_value blob mtime now nu) = true) ∧
    (0 < T → (read_value blob mtime now nu = .error .stale ↔ T < now - mtime)) := by
  obtain ⟨hv, hu, hblob⟩ := write_value_inv value unit T blob hw
  have hmax : max T 0 = T := max_eq_left hT0
  have htn : T.toNat < 2 ^ 31 := by omega
  have hcast : ((T.toNat : Nat) : Int) = T := Int.toNat_of_nonneg hT0
  subst hblob
  rw [hmax, read_value_mkRecord value unit T.toNat mtime now nu hv hu htn, hcast]
  refine ⟨?_, ?_, ?_⟩
  · intro h0
    subst h0
    rw [if_neg (by simp)]
    rfl
  · intro hTpos hle
    rw [if_neg (by intro hc; omega)]
    rfl
  · intro hTpos
    by_cases hgt : T < now - mtime
    · rw [if_pos ⟨by omega, by omega⟩]
      simp [hgt]
    · rw [if_neg (by intro hc; omega)]
      constructor
      · intro he
        exact absurd he (by simp)
      · intro hlt
        exact absurd hlt hgt

/-- C3, witness: a ttl = 0 record read 99 seconds later succeeds, and a
ttl = 5 record read 99 seconds later is Stale. -/
theorem C3_ttl_staleness_wit :
    exceptOk (read_value (mkRecord ['v'] ['u'] 0) 0 99 true) = true ∧
    (read_value (mkRecord ['v'] ['u'] 5) 0 99 true = .error .stale ↔ (5 : Int) < 99 - 0) :=
  ⟨(C3_ttl_staleness ['v'] ['u'] 0 (mkRecord ['v'] ['u'] 0) (by decide) (by decide)
      (by decide) 0 99 true).1 rfl,
   (C3_ttl_staleness ['v'] ['u'] 5 (mkRecord ['v'] ['u'] 5) (by decide) (by decide)
      (by decide) 0 99 true).2.2 (by decide)⟩

/-- C4, counterexample to the claim as stated: the directory entry named
a colon b carries no .metric suffix, yet find_assets returns the asset a
for it and delete_asset unlinks it; such entries are not ignored by every
scanning operation. -/
theorem C4_malformed_entries_cex :
    hasMetricSuffix ['a', ':', 'b'] = false ∧
    (find_assets true [['a', ':', 'b']] []).2 = [['a']] ∧
    (fty_shm_delete_asset true ['a'] [Entry.mk ['a', ':', 'b'] [] 0]).2 = [] := by decide

/-- C4, amended: entries without a colon are ignored by find_assets,
delete_asset and read_asset_metrics, and entries without the .metric suffix
are ignored by read_asset_metrics and cleanup; find_assets and delete_asset
do not check the suffix, and cleanup does not check for a colon. -/
theorem C4_malformed_entries (e : Entry) (pre post : List Entry) (xs ys : List (List Char))
    (asset : List Char) (now : Int) :
    (colonIn e.name = false →
      (find_assets true (xs ++ e.name :: ys) []).2 = (find_assets true (xs ++ ys) []).2 ∧
      e ∈ (fty_shm_delete_asset true asset (pre ++ e :: post)).2 ∧
      read_asset_metrics true asset (pre ++ e :: post) now [] =
        read_asset_metrics true asset (pre ++ post) now []) ∧
    (hasMetricSuffix e.name = false →
      read_asset_metrics true asset (pre ++ e :: post) now [] =
        read_asset_metrics true asset (pre ++ post) now [] ∧
      e ∈ fty_shm_cleanup (pre ++ e :: post) now) := by
  constructor
  · intro hc
    refine ⟨?_, ?_, ?_⟩
    · unfold find_assets
      rw [if_pos rfl, if_pos rfl]
      exact findAssetsGo_insert e.name hc xs ys []
    · unfold fty_shm_delete_asset
      rw [if_pos rfl]
      refine List.mem_filter.mpr ⟨List.mem_append_right pre (List.mem_cons_self e post), ?_⟩
      simp [hc]
    · unfold read_asset_metrics
      rw [if_pos rfl, if_pos rfl]
      exact ramGo_insert asset e now (by simp [ramMatch, hc]) pre post [] (-1)
  · intro hs
    constructor
    · unfold read_asset_metrics
      rw [if_pos rfl, if_pos rfl]
      exact ramGo_insert asset e now (by simp [ramMatch, hs]) pre post [] (-1)
    · refine List.mem_filter.mpr ⟨List.mem_append_right pre (List.mem_cons_self e post), ?_⟩
      unfold cleanup_removes
      simp [hs]

/-- C4, witness: the amended theorem applied to an entry named by the single
letter x, which has neither a colon nor the suffix. -/
theorem C4_malformed_entries_wit :
    ((find_assets true [['x']] []).2 = (find_assets true [] []).2 ∧
      Entry.mk ['x'] [] 0 ∈ (fty_shm_delete_asset true ['q'] [Entry.mk ['x'] [] 0]).2 ∧
      read_asset_metrics true ['q'] [Entry.mk ['x'] [] 0] 0 [] =
        read_asset_metrics true ['q'] [] 0 []) ∧
    (read_asset_metrics true ['q'] [Entry.mk ['x'] [] 0] 0 [] =
        read_asset_metrics true ['q'] [] 0 [] ∧
      Entry.mk ['x'] [] 0 ∈ fty_shm_cleanup [Entry.mk ['x'] [] 0] 0) :=
  ⟨(C4_malformed_entries (Entry.mk ['x'] [] 0) [] [] [] [] ['q'] 0).1 (by decide),
   (C4_malformed_entries (Entry.mk ['x'] [] 0) [] [] [] [] ['q'] 0).2 (by decide)⟩

/-- C5, counterexample to the claim as stated: with a listable directory and
no entries at all, read_asset_metrics returns -1 (failure), not success with
an empty map, because its err variable starts at -1 and is only reset when
some matching entry is read successfully. -/
theorem C5_read_asset_metrics_result_cex :
    (read_asset_metrics true ['a'] [] 0 []).1 = -1 ∧ ((-1 : Int) ≠ 0) := by decide

/-- C5, amended: with a listable directory, read_asset_metrics succeeds iff
at least one entry matches the asset and is read and decoded successfully;
it fails both when the directory cannot be listed and when no matching
entry decodes, including the case of no entries at all. -/
theorem C5_read_asset_metrics_result (asset : List Char) (store : List Entry) (now : Int)
    (prior : List (List Char × (List Char × List Char))) :
    ((read_asset_metrics true asset store now prior).1 = 0 ↔
      ∃ e ∈ store, ramMatch asset e.name = true ∧
        exceptOk (read_value e.content e.mtime now true) = true) ∧
    (read_asset_metrics false asset store now prior).1 = -1 := by
  constructor
  · unfold read_asset_metrics
    rw [if_pos rfl, ramGo_fst]
    by_cases h : store.any (ramHit asset now) = true
    · rw [if_pos h]
      obtain ⟨e, he, hh⟩ := List.any_eq_true.mp h
      have hh2 := (Bool.and_eq_true _ _).mp hh
      exact iff_of_true rfl ⟨e, he, hh2.1, hh2.2⟩
    · rw [if_neg h]
      refine iff_of_false (by norm_num) ?_
      rintro ⟨e, he, h1, h2⟩
      exact h (List.any_eq_true.mpr ⟨e, he, (Bool.and_eq_true _ _).mpr ⟨h1, h2⟩⟩)
  · rfl

/-- C6, counterexample to the claim as stated: when the non-replacing rename
back fails (destination exists), the code unlinks the temporary file but
also sets err to -1, so the outcome is reported as an error in the return
value of cleanup, contrary to the claim. -/
theorem C6_race_recovery_cex :
    cleanup_race_step ⟨true, true, false, true, false⟩ =
      RaceOutcome.mk true true false := by decide

/-- C6, amended: in the race-recovery step, when the rename to the temporary
name and the re-stat succeed, the inode differs, and the non-replacing
rename back fails, the temporary file is discarded, the original name is
not restored, and an error is recorded in the return value of cleanup. -/
theorem C6_race_recovery (env : RaceEnv) (h1 : env.renameOk = true) (h2 : env.statOk = true)
    (h3 : env.sameInode = false) (h4 : env.renameNoreplaceOk = false) :
    (cleanup_race_step env).tempDiscarded = true ∧ (cleanup_race_step env).errSet = true ∧
    (cleanup_race_step env).restored = false := by
  obtain ⟨a, b, c, d, f⟩ := env
  subst h1
  subst h2
  subst h3
  subst h4
  exact ⟨rfl, rfl, rfl⟩

/-- C6, witness: the amended theorem at a concrete environment. -/
theorem C6_race_recovery_wit :
    (cleanup_race_step ⟨true, true, false, false, false⟩).tempDiscarded = true ∧
    (cleanup_race_step ⟨true, true, false, false, false⟩).errSet = true ∧
    (cleanup_race_step ⟨true, true, false, false, false⟩).restored = false :=
  C6_race_recovery ⟨true, true, false, false, false⟩ rfl rfl rfl rfl

/-- C7, counterexample to the claim as stated: an asset name of 249 slash
characters contains the slash, but the operation is rejected with
NameTooLong rather than InvalidArgument, because the length check runs
before the character check. -/
theorem C7_name_validation_cex :
    '/' ∈ List.replicate 249 '/' ∧
    fty_shm_write_metric (List.replicate 249 '/') ['m'] ['v'] ['u'] 0 [] 0 =
      .error .nameTooLong ∧
    Err.nameTooLong ≠ Err.invalidArgument := by decide

/-- C7, amended: when the encoded entry name exceeds NAME_MAX, write_metric
and read_metric are rejected with NameTooLong (this check runs first);
otherwise, when either name contains a slash or a colon, they are rejected
with InvalidArgument; in both cases the functions return before any record
is read or written. -/
theorem C7_name_validation (asset metric value unit : List Char) (ttl : Int)
    (store : List Entry) (wtime now : Int) (nu : Bool) :
    (NAME_MAX < asset.length + 1 + metric.length + SUFFIX_LEN →
      fty_shm_write_metric asset metric value unit ttl store wtime = .error .nameTooLong ∧
      fty_shm_read_metric asset metric store now nu = .error .nameTooLong) ∧
    (asset.length + 1 + metric.length + SUFFIX_LEN ≤ NAME_MAX →
      ('/' ∈ asset ∨ ':' ∈ asset ∨ '/' ∈ metric ∨ ':' ∈ metric) →
      fty_shm_write_metric asset metric value unit ttl store wtime = .error .invalidArgument ∧
      fty_shm_read_metric asset metric store now nu = .error .invalidArgument) := by
  constructor
  · intro h
    have hp : prepare_filename asset metric = .error .nameTooLong := by
      unfold prepare_filename
      rw [if_pos h]
    constructor
    · unfold fty_shm_write_metric
      simp only [hp]
    · unfold fty_shm_read_metric
      simp only [hp]
  · intro h hbad
    have hp : prepare_filename asset metric = .error .invalidArgument := by
      unfold prepare_filename
      rw [if_neg (not_lt.mpr h), if_pos hbad]
    constructor
    · unfold fty_shm_write_metric
      simp only [hp]
    · unfold fty_shm_read_metric
      simp only [hp]

/-- C7, witness: the amended theorem at a too-long name of slashes and at a
short name containing a slash. -/
theorem C7_name_validation_wit :
    (fty_shm_write_metric (List.replicate 249 '/') ['m'] ['v'] ['u'] 0 [] 0 =
        .error .nameTooLong ∧
      fty_shm_read_metric (List.replicate 249 '/') ['m'] [] 0 true = .error .nameTooLong) ∧
    (fty_shm_write_metric ['/'] ['m'] ['v'] ['u'] 0 [] 0 = .error .invalidArgument ∧
      fty_shm_read_metric ['/'] ['m'] [] 0 true = .error .invalidArgument) :=
  ⟨(C7_name_validation (List.replicate 249 '/') ['m'] ['v'] ['u'] 0 [] 0 0 true).1 (by decide),
   (C7_name_validation ['/'] ['m'] ['v'] ['u'] 0 [] 0 0 true).2 (by decide)
     (Or.inl (List.mem_singleton.mpr rfl))⟩

/-- C8: record encoding fails with InvalidArgument whenever the value is
longer than 106 bytes or the unit is longer than 10 bytes, and a negative
ttl argument is clamped to 0, producing the same record as ttl = 0. -/
theorem C8_encode_validation (value unit : List Char) (ttl : Int) :
    (PAYLOAD_LEN < value.length ∨ UNIT_LEN < unit.length →
      write_value value unit ttl = .error .invalidArgument) ∧
    (ttl < 0 → write_value value unit ttl = write_value value unit 0) := by
  constructor
  · intro h
    unfold write_value
    rcases h with h | h
    · rw [if_pos h]
    · by_cases h2 : PAYLOAD_LEN < value.length
      · rw [if_pos h2]
      · rw [if_neg h2, if_pos h]
  · intro h
    unfold write_value
    rw [show max ttl 0 = max (0 : Int) 0 from by omega]

/-- C8, witness: a 107-byte value is rejected, and ttl = -3 encodes the same
record as ttl = 0. -/
theorem C8_encode_validation_wit :
    write_value (List.replicate 107 'a') ['u'] 5 = .error .invalidArgument ∧
    write_value ['v'] ['u'] (-3) = write_value ['v'] ['u'] 0 :=
  ⟨(C8_encode_validation (List.replicate 107 'a') ['u'] 5).1 (Or.inl (by decide)),
   (C8_encode_validation ['v'] ['u'] (-3)).2 (by decide)⟩

/-- C9, counterexample to the claim as stated: a TTL field with a leading
minus sign, and one with a leading space, both parse successfully, though
the claim says any non-digit among the 10 bytes, including a sign character
or leading whitespace, must fail with Corrupt. -/
theorem C9_ttl_parse_cex :
    parse_ttl ['-', '0', '0', '0', '0', '0', '0', '0', '0', '1'] = .ok (-1) ∧
    parse_ttl [' ', '1', '2', '3', '4', '5', '6', '7', '8', '9'] = .ok 123456789 := by
  decide

/-- C9, amended: the 10-byte TTL field parses successfully iff it consists
of a run of C whitespace (possibly empty), an optional single sign
character, and then at least one decimal digit extending through the last
byte; any other content, including a non-digit after the digits begin,
fails with an error (ERANGE, classified Corrupt). -/
theorem C9_ttl_parse (s : List Char) (h : s.length = TTL_LEN) :
    exceptOk (parse_ttl s) = true ↔
      ∃ w g d, s = w ++ g ++ d ∧ (∀ c ∈ w, isCSpace c = true) ∧
        (g = [] ∨ g = ['+'] ∨ g = ['-']) ∧ d ≠ [] ∧ (∀ c ∈ d, isCDigit c = true) := by
  rw [parse_ttl_ok_iff s h]
  constructor
  · intro hok
    simp only [strtol10, List.isEmpty_iff] at hok
    obtain ⟨t, ht⟩ := List.takeWhile_prefix (l := s) isCSpace
    have hdrop : s.drop (s.takeWhile isCSpace).length = t := by
      nth_rewrite 2 [← ht]
      exact List.drop_left _ _
    rw [hdrop] at hok
    have hwall : ∀ c ∈ s.takeWhile isCSpace, isCSpace c = true :=
      fun c hc => List.mem_takeWhile_imp hc
    have hslen : s.length = (s.takeWhile isCSpace).length + t.length := by
      conv_lhs => rw [← ht]
      exact List.length_append _ _
    by_cases hsign : (t.head? = some '-' ∨ t.head? = some '+')
    · rw [if_pos hsign] at hok
      cases t with
      | nil =>
        rcases hsign with hsign | hsign <;> exact Option.noConfusion hsign
      | cons c t2 =>
        rw [show (c :: t2).drop 1 = t2 from rfl] at hok
        by_cases hds : t2.takeWhile isCDigit = []
        · rw [if_pos hds] at hok
          exact absurd hok (by decide)
        · rw [if_neg hds] at hok
          simp only at hok
          have hpre2 := List.takeWhile_prefix (l := t2) isCDigit
          have hlt2 : (t2.takeWhile isCDigit).length = t2.length := by
            simp only [List.length_cons, TTL_LEN] at hok hslen h
            omega
          have hdall := hpre2.eq_of_length hlt2
          refine ⟨s.takeWhile isCSpace, [c], t2, ?_, hwall, ?_, ?_, ?_⟩
          · rw [List.append_assoc, List.singleton_append, ht]
          · rcases hsign with hsign | hsign
            · injection hsign with hsign
              subst hsign
              exact Or.inr (Or.inr rfl)
            · injection hsign with hsign
              subst hsign
              exact Or.inr (Or.inl rfl)
          · intro h2
            subst h2
            exact hds rfl
          · intro x hx
            rw [← hdall] at hx
            exact List.mem_takeWhile_imp hx
    · rw [if_neg hsign] at hok
      rw [if_neg (fun hc => hsign (Or.inl hc)), List.drop_zero] at hok
      by_cases hds : t.takeWhile isCDigit = []
      · rw [if_pos hds] at hok
        exact absurd hok (by decide)
      · rw [if_neg hds] at hok
        simp only at hok
        have hpre2 := List.takeWhile_prefix (l := t) isCDigit
        have hlt2 : (t.takeWhile isCDigit).length = t.length := by
          simp only [TTL_LEN] at hok hslen h
          omega
        have hdall := hpre2.eq_of_length hlt2
        refine ⟨s.takeWhile isCSpace, [], t, ?_, hwall, Or.inl rfl, ?_, ?_⟩
        · rw [List.append_nil, ht]
        · intro h2
          subst h2
          exact hds rfl
        · intro x hx
          rw [← hdall] at hx
          exact List.mem_takeWhile_imp hx
  · rintro ⟨w, g, d, hs, hwall, hg, hd0, hdall⟩
    subst hs
    obtain ⟨c, d2, rfl⟩ : ∃ c d2, d = c :: d2 := by
      cases d with
      | nil => exact absurd rfl hd0
      | cons c d2 => exact ⟨c, d2, rfl⟩
    have hc : isCDigit c = true := hdall c (List.mem_cons_self c d2)
    have hdtw : (c :: d2).takeWhile isCDigit = c :: d2 := takeWhile_all _ _ hdall
    rcases hg with rfl | rfl | rfl
    · have hgd : (([] ++ c :: d2 : List Char)).takeWhile isCSpace = [] := by
        rw [List.nil_append]
        exact List.takeWhile_cons_of_neg (by
          rw [digit_not_space c hc]
          exact Bool.false_ne_true)
      have hW : (w ++ [] ++ c :: d2).takeWhile isCSpace = w := by
        rw [List.append_assoc, takeWhile_append_all _ _ _ hwall, hgd, List.append_nil]
      have hD : (w ++ [] ++ c :: d2).drop w.length = [] ++ c :: d2 := by
        rw [List.append_assoc]
        exact List.drop_left _ _
      have e1 : ((some c : Option Char) = some '-') = False := by
        simp only [Option.some.injEq]
        exact eq_false (digit_ne_minus_c c hc)
      have e2 : ((some c : Option Char) = some '+') = False := by
        simp only [Option.some.injEq]
        exact eq_false (digit_ne_plus_c c hc)
      simp only [strtol10, hW, hD, List.nil_append, List.head?_cons, e1, e2, or_self,
        if_false, List.drop_zero, hdtw, List.isEmpty_iff]
      rw [if_neg (List.cons_ne_nil c d2)]
      simp only [List.length_append, List.length_nil, List.length_cons, TTL_LEN] at h ⊢
      omega
    · have hgd : ((['+'] ++ c :: d2 : List Char)).takeWhile isCSpace = [] :=
        List.takeWhile_cons_of_neg (by decide)
      have hW : (w ++ ['+'] ++ c :: d2).takeWhile isCSpace = w := by
        rw [List.append_assoc, takeWhile_append_all _ _ _ hwall, hgd, List.append_nil]
      have hD : (w ++ ['+'] ++ c :: d2).drop w.length = ['+'] ++ c :: d2 := by
        rw [List.append_assoc]
        exact List.drop_left _ _
      have e1 : ((some '+' : Option Char) = some '-') = False := by simp
      have e2 : (((some '+' : Option Char) = some '-') ∨
          ((some '+' : Option Char) = some '+')) = True := by simp
      simp only [strtol10, hW, hD, List.singleton_append, List.head?_cons, e1, e2,
        if_false, if_true, false_or, true_or, or_true, List.drop_succ_cons, List.drop_zero,
        hdtw, List.isEmpty_iff]
      rw [if_neg (List.cons_ne_nil c d2)]
      simp only [List.length_append, List.length_singleton, List.length_cons,
        List.length_nil, TTL_LEN] at h ⊢
      omega
    · have hgd : ((['-'] ++ c :: d2 : List Char)).takeWhile isCSpace = [] :=
        List.takeWhile_cons_of_neg (by decide)
      have hW : (w ++ ['-'] ++ c :: d2).takeWhile isCSpace = w := by
        rw [List.append_assoc, takeWhile_append_all _ _ _ hwall, hgd, List.append_nil]
      have hD : (w ++ ['-'] ++ c :: d2).drop w.length = ['-'] ++ c :: d2 := by
        rw [List.append_assoc]
        exact List.drop_left _ _
      have e1 : ((some '-' : Option Char) = some '-') = True := by simp
      have e2 : (((some '-' : Option Char) = some '-') ∨
          ((some '-' : Option Char) = some '+')) = True := by simp
      simp only [strtol10, hW, hD, List.singleton_append, List.head?_cons, e1, e2,
        if_true, false_or, true_or, or_true, List.drop_succ_cons, List.drop_zero, hdtw,
        List.isEmpty_iff]
      rw [if_neg (List.cons_ne_nil c d2)]
      simp only [List.length_append, List.length_singleton, List.length_cons,
        List.length_nil, TTL_LEN] at h ⊢
      omega

/-- C9, witness: the amended characterization at a concrete all-digit
field. -/
theorem C9_ttl_parse_wit :
    exceptOk (parse_ttl ['0', '0', '0', '0', '0', '0', '0', '0', '4', '2']) = true ↔
      ∃ w g d, ['0', '0', '0', '0', '0', '0', '0', '0', '4', '2'] = w ++ g ++ d ∧
        (∀ c ∈ w, isCSpace c = true) ∧ (g = [] ∨ g = ['+'] ∨ g = ['-']) ∧ d ≠ [] ∧
        (∀ c ∈ d, isCDigit c = true) :=
  C9_ttl_parse ['0', '0', '0', '0', '0', '0', '0', '0', '4', '2'] (by decide)

/-- C10: find_assets and read_asset_metrics clear the caller-supplied
output container before populating it, so after a successful call the
container holds exactly the results of the current scan, independent of any
prior contents. -/
theorem C10_containers_cleared (entries : List (List Char))
    (prior1 prior2 : List (List Char)) (asset : List Char) (store : List Entry) (now : Int)
    (m1 m2 : List (List Char × (List Char × List Char))) :
    (find_assets true entries prior1).2 = findAssetsGo entries [] ∧
    (find_assets true entries prior1).2 = (find_assets true entries prior2).2 ∧
    (read_asset_metrics true asset store now m1).2 = (ramGo asset store now [] (-1)).2 ∧
    (read_asset_metrics true asset store now m1).2 =
      (read_asset_metrics true asset store now m2).2 :=
  ⟨rfl, rfl, rfl, rfl⟩

end FtyShm
